import Mathlib

/-
Verification of `crates/next-core/src/nodejs/mod.rs` (turbo repository).

The file shallowly embeds the module's operations:
  * the worker-response protocol interpretation of `render_static`
    (lines 220-276), with `serde_json::from_str` / value rendering modelled
    by an executable JSON parser / printer over an AST (`Json`);
  * the graph partitioning of `separate_assets` (lines 94-149), with the
    `FuturesUnordered` worklist sequentialised to a FIFO queue and artifacts
    modelled as nodes `Fin n` of a finite graph;
  * `emit` (lines 32-45), modelled by the set of assets whose contents are
    written;
  * `get_renderer_pool` (lines 151-167), with an explicit event trace for
    the ordering of emission and pool construction.

Modelling notes (simplifications that do not affect the claims):
  * JSON numbers are modelled as integers; payloads using fractional or
    exponent syntax are outside the modelled parser's domain (it returns
    `none` on them, while serde_json would parse a float).
  * `\uXXXX` escapes in the surrogate range (and hence surrogate pairs)
    are not modelled; serde_json's short escapes, `\u00XX` control escapes,
    and all other JSON string syntax are.
  * The textual content of serde_json's parse-error message is opaque; the
    model uses the fixed string "failed to parse JSON" for the hard error
    produced by the `?` operator on `serde_json::from_str`.
-/

/-! ## JSON values (serde_json::Value) -/

inductive Json where
  | null
  | bool (b : Bool)
  | num (n : Int)
  | str (s : String)
  | arr (elems : List Json)
  | obj (members : List (String × Json))

/- `Value::as_str` -/
def Json.as_str : Json → Option String
  | .str s => some s
  | _ => none

/-! ### serde_json string escaping (used by `Display` on `Value` and by the
round-trip claim's encoder) -/

def hexDigitChar (k : Nat) : Char :=
  match k with
  | 0 => '0' | 1 => '1' | 2 => '2' | 3 => '3'
  | 4 => '4' | 5 => '5' | 6 => '6' | 7 => '7'
  | 8 => '8' | 9 => '9' | 10 => 'a' | 11 => 'b'
  | 12 => 'c' | 13 => 'd' | 14 => 'e' | _ => 'f'

/- One character of serde_json's string escaping table: `"` and `\` are
backslash-escaped, the five classic control characters use their short
escapes, remaining control characters use `\u00XX`, everything else is
emitted verbatim. -/
def escapeChar (c : Char) : List Char :=
  if c = '"' then ['\\', '"']
  else if c = '\\' then ['\\', '\\']
  else if c = '\x08' then ['\\', 'b']
  else if c = '\x09' then ['\\', 't']
  else if c = '\x0a' then ['\\', 'n']
  else if c = '\x0c' then ['\\', 'f']
  else if c = '\x0d' then ['\\', 'r']
  else if c.toNat < 0x20 then
    ['\\', 'u', '0', '0', hexDigitChar (c.toNat / 16), hexDigitChar (c.toNat % 16)]
  else [c]

def escapeBody : List Char → List Char
  | [] => []
  | c :: cs => escapeChar c ++ escapeBody cs

/- The JSON encoding of a string (quotes included), as serde_json produces it. -/
def jsonQuote (s : String) : String :=
  ⟨'"' :: (escapeBody s.data ++ ['"'])⟩

/- Compact rendering of a JSON value: `Value`'s `Display`/`to_string()`. -/
mutual

def Json.render : Json → String
  | .null => "null"
  | .bool true => "true"
  | .bool false => "false"
  | .num n => toString n
  | .str s => jsonQuote s
  | .arr elems => "[" ++ String.intercalate "," (Json.renderList elems) ++ "]"
  | .obj members => "\x7b" ++ String.intercalate "," (Json.renderMembers members) ++ "\x7d"

def Json.renderList : List Json → List String
  | [] => []
  | v :: vs => Json.render v :: Json.renderList vs

def Json.renderMembers : List (String × Json) → List String
  | [] => []
  | m :: ms => (jsonQuote m.1 ++ ":" ++ Json.render m.2) :: Json.renderMembers ms

end

/-! ### JSON parsing (serde_json::from_str) -/

def hexVal (c : Char) : Option Nat :=
  if '0' ≤ c ∧ c ≤ '9' then some (c.toNat - '0'.toNat)
  else if 'a' ≤ c ∧ c ≤ 'f' then some (c.toNat - 'a'.toNat + 10)
  else if 'A' ≤ c ∧ c ≤ 'F' then some (c.toNat - 'A'.toNat + 10)
  else none

def skipWs : List Char → List Char
  | [] => []
  | c :: rest =>
    if c = ' ' ∨ c = '\x09' ∨ c = '\x0a' ∨ c = '\x0d' then skipWs rest else c :: rest

/- The value of four hex digits, `none` if any is not a hex digit. -/
def hexVal4 (a b c d : Char) : Option Nat :=
  match hexVal a, hexVal b, hexVal c, hexVal d with
  | some x, some y, some z, some w => some (((x * 16 + y) * 16 + z) * 16 + w)
  | _, _, _, _ => none

/- Decode one backslash escape: the decoded character and the rest of the
input. Escapes in the surrogate range `\uD800`.. are not modelled. -/
def decodeEscape : List Char → Option (Char × List Char)
  | '"' :: r => some ('"', r)
  | '\\' :: r => some ('\\', r)
  | '/' :: r => some ('/', r)
  | 'b' :: r => some ('\x08', r)
  | 'f' :: r => some ('\x0c', r)
  | 'n' :: r => some ('\x0a', r)
  | 'r' :: r => some ('\x0d', r)
  | 't' :: r => some ('\x09', r)
  | 'u' :: h1 :: h2 :: h3 :: h4 :: r =>
    (match hexVal4 h1 h2 h3 h4 with
     | some code => if code < 0xD800 then some (Char.ofNat code, r) else none
     | none => none)
  | _ => none

/- One step of string-body lexing: the closing quote, one decoded character
(escaped or verbatim), or a lexical error. Raw control characters are
rejected, as serde_json rejects them. -/
inductive StrTok where
  | done (rest : List Char)
  | chr (c : Char) (rest : List Char)

def decodeNext : List Char → Option StrTok
  | [] => none
  | '"' :: r => some (.done r)
  | '\\' :: esc => (decodeEscape esc).map fun dr => .chr dr.1 dr.2
  | c :: rest => if c.toNat < 0x20 then none else some (.chr c rest)

/- Body of a JSON string after the opening quote: returns the decoded
characters and the remaining input after the closing quote. Every step
consumes at least one input character, so the fuel in `parseString` is
never exhausted. -/
def parseStringBody : Nat → List Char → Option (List Char × List Char)
  | 0, _ => none
  | fuel + 1, input =>
    match decodeNext input with
    | some (.done rest) => some ([], rest)
    | some (.chr d rest) => (parseStringBody fuel rest).map fun p => (d :: p.1, p.2)
    | none => none

def parseString (r : List Char) : Option (List Char × List Char) :=
  parseStringBody (r.length + 1) r

def parseDigits : List Char → Nat → Nat × List Char
  | [], acc => (acc, [])
  | c :: rest, acc =>
    if '0' ≤ c ∧ c ≤ '9' then parseDigits rest (acc * 10 + (c.toNat - 48))
    else (acc, c :: rest)

def parseNat : List Char → Option (Nat × List Char)
  | '0' :: rest => some (0, rest)
  | c :: rest =>
    if '1' ≤ c ∧ c ≤ '9' then some (parseDigits rest (c.toNat - 48)) else none
  | [] => none

def floatStart : List Char → Bool
  | c :: _ => c = '.' || c = 'e' || c = 'E'
  | [] => false

def parseNumber : List Char → Option (Int × List Char)
  | '-' :: rest =>
    match parseNat rest with
    | some (m, r) => if floatStart r then none else some (-(m : Int), r)
    | none => none
  | input =>
    match parseNat input with
    | some (m, r) => if floatStart r then none else some ((m : Int), r)
    | none => none

/- Mode of the recursive-descent JSON parser: a plain value, the elements
of an array (after `[`), or the members of an object (after the opening
brace). A single fuel-indexed function keeps the recursion structural. -/
inductive PMode where
  | value
  | elems (acc : List Json)
  | members (acc : List (String × Json))

def parseCore : Nat → PMode → List Char → Option (Json × List Char)
  | 0, _, _ => none
  | fuel + 1, .value, input =>
    match skipWs input with
    | 'n' :: 'u' :: 'l' :: 'l' :: r => some (.null, r)
    | 't' :: 'r' :: 'u' :: 'e' :: r => some (.bool true, r)
    | 'f' :: 'a' :: 'l' :: 's' :: 'e' :: r => some (.bool false, r)
    | '"' :: r => (parseString r).map fun p => (.str ⟨p.1⟩, p.2)
    | '[' :: r =>
      (match skipWs r with
       | ']' :: rest => some (.arr [], rest)
       | r2 => parseCore fuel (.elems []) r2)
    | '\x7b' :: r =>
      (match skipWs r with
       | '\x7d' :: rest => some (.obj [], rest)
       | r2 => parseCore fuel (.members []) r2)
    | other => (parseNumber other).map fun p => (.num p.1, p.2)
  | fuel + 1, .elems acc, input =>
    match parseCore fuel .value input with
    | some (v, rest) =>
      (match skipWs rest with
       | ',' :: r2 => parseCore fuel (.elems (acc ++ [v])) r2
       | ']' :: r2 => some (.arr (acc ++ [v]), r2)
       | _ => none)
    | none => none
  | fuel + 1, .members acc, input =>
    match skipWs input with
    | '"' :: r =>
      match parseString r with
      | some (key, r2) =>
        (match skipWs r2 with
         | ':' :: r3 =>
           match parseCore fuel .value r3 with
           | some (v, rest) =>
             (match skipWs rest with
              | ',' :: r4 => parseCore fuel (.members (acc ++ [(⟨key⟩, v)])) r4
              | '\x7d' :: r4 => some (.obj (acc ++ [(⟨key⟩, v)]), r4)
              | _ => none)
           | none => none
         | _ => none)
      | none => none
    | _ => none

/- `serde_json::from_str::<Value>`: parse one value, reject trailing input. -/
def parseJson (s : String) : Option Json :=
  match parseCore (2 * s.length + 2) .value s.data with
  | some (v, rest) =>
    (match skipWs rest with
     | [] => some v
     | _ => none)
  | none => none


/-! ## `render_static`'s protocol interpretation (lines 188-277)

The pool interaction and the blocking read are collaborator-controlled; the
embedding takes the worker's output `lines` (the value of `op.read_lines()?`)
as input, exactly like the protocol state machine of the code from line 220
on. The issue side channel is modelled by the `issue` component of the
result: `some` when the code calls `issue.cell().as_issue().emit()` exactly
once, `none` on the early-return success path. A `?`-propagated hard error
(serde parse failure) is `Except.error`. -/

/- `strip_prefix`: consume `p` from the front of `s`, character by character. -/
def stripChars : List Char → List Char → Option (List Char)
  | s, [] => some s
  | [], _ :: _ => none
  | c :: s, q :: qs => if c = q then stripChars s qs else none

def stripLead (s p : String) : Option String :=
  (stripChars s.data p.data).map fun cs => ⟨cs⟩

/- `FileContent::Content(File::from_source(content).with_content_type(TEXT_HTML_UTF_8))` -/
structure AssetContent where
  body : String
  contentType : String
deriving DecidableEq

def TEXT_HTML_UTF_8 : String := "text/html; charset=utf-8"

def into_result (content : String) : AssetContent :=
  ⟨content, TEXT_HTML_UTF_8⟩

/- `crate::nodejs::issue::RenderingIssue` -/
structure RenderingIssue where
  context : String
  message : String
  logging : String
deriving DecidableEq

/- The error page of lines 266-271 (the Rust string literal continues over a
backslash-newline, so it reads "Error during rendering"). -/
def error_page (message logging : String) : String :=
  "<h1>Error during rendering</h1>\n<h2>Message</h2>\n<pre>" ++ message ++
    "</pre>\n<h2>Logs</h2>\n<pre>" ++ logging ++ "</pre>"

structure RenderOutput where
  content : AssetContent
  issue : Option RenderingIssue
deriving DecidableEq

def render_static (path : String) (lines : List String) : Except String RenderOutput :=
  match lines.getLast? with
  | some last_line =>
    match stripLead last_line "RESULT=" with
    | some data =>
      match parseJson data with
      | none => .error "failed to parse JSON"
      | some v =>
        match v.as_str with
        | some s => .ok ⟨into_result s, none⟩
        | none =>
          let issue : RenderingIssue :=
            ⟨path, "Result provided by Node.js rendering process was not a string",
              String.intercalate "\n" lines⟩
          .ok ⟨into_result (error_page issue.message issue.logging), some issue⟩
    | none =>
      match stripLead last_line "ERROR=" with
      | some data =>
        match parseJson data with
        | none => .error "failed to parse JSON"
        | some v =>
          let issue : RenderingIssue :=
            match v.as_str with
            | some s => ⟨path, s, String.intercalate "\n" lines.dropLast⟩
            | none => ⟨path, v.render, String.intercalate "\n" lines.dropLast⟩
          .ok ⟨into_result (error_page issue.message issue.logging), some issue⟩
      | none =>
        let issue : RenderingIssue :=
          ⟨path, "No result provided by Node.js process", String.intercalate "\n" lines⟩
        .ok ⟨into_result (error_page issue.message issue.logging), some issue⟩
  | none =>
    let issue : RenderingIssue :=
      ⟨path, "No content received from Node.js process.", ""⟩
    .ok ⟨into_result (error_page issue.message issue.logging), some issue⟩

def is_hard_error : Except String RenderOutput → Bool
  | .error _ => true
  | .ok _ => false


/-! ## `separate_assets` (lines 94-149)

Artifacts are the nodes `Fin n` of a finite graph; `inside a` is the test
`asset.path().is_inside(intermediate_output_path)` and `refs a` is the
flattened list of primary assets of `asset.references()`. The
`FuturesUnordered` worklist is sequentialised to a FIFO queue (one
linearisation of the unordered completions; the inserted sets are
order-independent). The `trace` component records each dequeued artifact in
order, to state how often an artifact is processed; the code itself keeps
`processed` (the visited set), `internal_assets` and
`external_asset_entrypoints`. -/

structure Graph (n : Nat) where
  inside : Fin n → Bool
  refs : Fin n → List (Fin n)

structure SeparatedAssets (n : Nat) where
  internal_assets : Finset (Fin n)
  external_asset_entrypoints : Finset (Fin n)
  trace : List (Fin n)
deriving DecidableEq

/- The inner for-loop of the `Type::Internal` arm: for each reference `r`,
`if processed.insert(r) { queue.push(process_asset(r)) }`. -/
def pushRefs {n : Nat} (processed : Finset (Fin n)) (queue : List (Fin n)) :
    List (Fin n) → Finset (Fin n) × List (Fin n)
  | [] => (processed, queue)
  | r :: rs =>
    if r ∈ processed then pushRefs processed queue rs
    else pushRefs (insert r processed) (queue ++ [r]) rs

/- The `while let Some(item) = queue.try_next().await?` loop. The fuel
argument only bounds the number of iterations; `sepLoop_terminates` below
shows that the fuel chosen in `separate_assets` is never exhausted. -/
def sepLoop {n : Nat} (g : Graph n) :
    Nat → List (Fin n) → Finset (Fin n) → Finset (Fin n) → Finset (Fin n) →
    List (Fin n) → Option (SeparatedAssets n)
  | _, [], _, internal, external, tr => some ⟨internal, external, tr⟩
  | 0, _ :: _, _, _, _, _ => none
  | fuel + 1, a :: rest, processed, internal, external, tr =>
    if g.inside a then
      let pq := pushRefs processed rest (g.refs a)
      sepLoop g fuel pq.2 pq.1 (insert a internal) external (tr ++ [a])
    else
      sepLoop g fuel rest processed internal (insert a external) (tr ++ [a])

/- `separate_assets`: the entry artifact is pushed onto the queue (without
being inserted into `processed`), then the worklist is drained. -/
def separate_assets {n : Nat} (g : Graph n) (entry : Fin n) :
    Option (SeparatedAssets n) :=
  sepLoop g (n + 2) [entry] ∅ ∅ ∅ []

/- `internal_assets` (lines 58-68): project the internal set. -/
def internal_assets {n : Nat} (g : Graph n) (entry : Fin n) : Option (Finset (Fin n)) :=
  (separate_assets g entry).map fun st => st.internal_assets

/- `emit` (lines 32-45): one `content().write(path())` per internal asset;
the model returns the set of assets written. -/
def emit {n : Nat} (g : Graph n) (entry : Fin n) : Option (Finset (Fin n)) :=
  internal_assets g entry

/- Reachability through references of internal artifacts only: the entry
itself, plus everything referenced from a reachable artifact whose path is
inside the output directory. References of external artifacts are not
followed. -/
inductive ReachI {n : Nat} (g : Graph n) (entry : Fin n) : Fin n → Prop
  | origin : ReachI g entry entry
  | step {a b : Fin n} : ReachI g entry a → g.inside a = true → b ∈ g.refs a →
      ReachI g entry b

/-! ## `get_renderer_pool` (lines 151-167) -/

/- `turbo_tasks_fs` roots: a `DiskFileSystem` with a root directory, or any
other (virtual) filesystem, for which `DiskFileSystemVc::resolve_from`
yields `None`. -/
inductive FileSystem where
  | disk (root : String)
  | virtualFs
deriving DecidableEq

structure OutputPath where
  fs : FileSystem
  path : String
deriving DecidableEq

/- `PathBuf::join` for relative right-hand sides. -/
def pathJoin (a b : String) : String := a ++ "/" ++ b

/- `NodeJsPool::new(dir, entrypoint, HashMap::new(), 4)` -/
structure NodeJsPool where
  cwd : String
  entrypoint : String
  env : List (String × String)
  concurrency : Nat
deriving DecidableEq

/- Observable effects of `get_renderer_pool`, in order: the awaited `emit`
(with the set of assets written), and the construction of a pool. -/
inductive PoolEvent (n : Nat) where
  | emitted (writes : Finset (Fin n))
  | poolConstructed (pool : NodeJsPool)
deriving DecidableEq

/- `get_renderer_pool`: first `emit(...).await?`, then resolve the output
path against a disk filesystem; on success build a pool of 4 processes in
`<root>/<path>` with entrypoint `index.js` and no environment overrides,
otherwise fail. (`emit_isSome` below shows the `getD ∅` default is never
taken.) -/
def get_renderer_pool {n : Nat} (g : Graph n) (entry : Fin n) (out : OutputPath) :
    List (PoolEvent n) × Except String NodeJsPool :=
  let writes := (emit g entry).getD ∅
  match out.fs with
  | .disk root =>
    let dir := pathJoin root out.path
    let entrypoint := pathJoin dir "index.js"
    let pool : NodeJsPool := ⟨dir, entrypoint, [], 4⟩
    ([.emitted writes, .poolConstructed pool], .ok pool)
  | .virtualFs =>
    ([.emitted writes], .error "can only render from a disk filesystem")


/-! ## Auxiliary definitions used only in theorem statements and witnesses -/

/- Every `RESULT=` / `ERROR=` payload on the last worker line (when there is
one) is valid JSON for the modelled parser. -/
def payload_parses (lines : List String) : Prop :=
  ∀ last, lines.getLast? = some last →
    (∀ d, stripLead last "RESULT=" = some d → (parseJson d).isSome = true) ∧
    (∀ d, stripLead last "ERROR=" = some d → (parseJson d).isSome = true)

/- A single internal artifact referencing itself: the entry is dequeued twice
because it is pushed onto the queue without being inserted into `processed`. -/
def selfLoopGraph : Graph 1 := ⟨fun _ => true, fun _ => [0]⟩

/- A single artifact placed outside the output directory. -/
def externalEntryGraph : Graph 1 := ⟨fun _ => false, fun _ => []⟩

/- Entry 0 (internal) references 1 (internal) and 2 (external); 1 has no
references. -/
def sampleGraph : Graph 3 := ⟨fun a => a ≠ 2, fun a => if a = 0 then [1, 2] else []⟩

/-! # Theorems

## Helper lemmas about prefixes, escaping and parsing -/

theorem stripChars_self_append (p s : List Char) : stripChars (p ++ s) p = some s := by
  induction p with
  | nil => cases s <;> rfl
  | cons c ps ih => simpa [stripChars] using ih

theorem stripLead_self_append (p s : String) : stripLead (p ++ s) p = some s := by
  unfold stripLead
  rw [String.data_append, stripChars_self_append]
  rfl

theorem stripLead_error_result (s d : String) (h : stripLead s "ERROR=" = some d) :
    stripLead s "RESULT=" = none := by
  unfold stripLead at h ⊢
  cases hs : s.data with
  | nil =>
    rw [hs] at h
    rw [show stripChars ([] : List Char) "ERROR=".data = none from rfl] at h
    simp at h
  | cons c t =>
    rw [hs] at h
    by_cases hc : c = 'E'
    · subst hc; rfl
    · rw [show stripChars (c :: t) "ERROR=".data =
          if c = 'E' then stripChars t "RROR=".data else none from rfl] at h
      rw [if_neg hc] at h
      simp at h

theorem length_escapeChar_pos (c : Char) : 1 ≤ (escapeChar c).length := by
  unfold escapeChar
  split_ifs <;> simp

theorem hexVal_hexDigitChar (k : Nat) (hk : k < 16) : hexVal (hexDigitChar k) = some k := by
  interval_cases k <;> rfl

theorem hexVal4_00 (d1 d2 : Char) (k1 k2 : Nat) (h1 : hexVal d1 = some k1)
    (h2 : hexVal d2 = some k2) : hexVal4 '0' '0' d1 d2 = some (k1 * 16 + k2) := by
  have e0 : hexVal '0' = some 0 := rfl
  simp [hexVal4, e0, h1, h2]

theorem decodeNext_backslash (es : List Char) :
    decodeNext ('\\' :: es) = (decodeEscape es).map fun dr => StrTok.chr dr.1 dr.2 := rfl

theorem decodeEscape_u_val (a b : Char) (k : Nat) (r : List Char)
    (h : hexVal4 '0' '0' a b = some k) :
    decodeEscape ('u' :: '0' :: '0' :: a :: b :: r) =
      if k < 0xD800 then some (Char.ofNat k, r) else none := by
  have e : decodeEscape ('u' :: '0' :: '0' :: a :: b :: r) =
      (match hexVal4 '0' '0' a b with
       | some code => if code < 0xD800 then some (Char.ofNat code, r) else none
       | none => none) := rfl
  rw [e, h]

theorem decodeNext_escapeChar (c : Char) (tail : List Char) :
    decodeNext (escapeChar c ++ tail) = some (.chr c tail) := by
  by_cases h1 : c = '"'
  · subst h1; rfl
  by_cases h2 : c = '\\'
  · subst h2; rfl
  by_cases h3 : c = '\x08'
  · subst h3; rfl
  by_cases h4 : c = '\x09'
  · subst h4; rfl
  by_cases h5 : c = '\x0a'
  · subst h5; rfl
  by_cases h6 : c = '\x0c'
  · subst h6; rfl
  by_cases h7 : c = '\x0d'
  · subst h7; rfl
  by_cases h8 : c.toNat < 0x20
  · have e : escapeChar c =
        ['\\', 'u', '0', '0', hexDigitChar (c.toNat / 16), hexDigitChar (c.toNat % 16)] := by
      unfold escapeChar
      rw [if_neg h1, if_neg h2, if_neg h3, if_neg h4, if_neg h5, if_neg h6, if_neg h7, if_pos h8]
    rw [e]
    have hv1 : hexVal (hexDigitChar (c.toNat / 16)) = some (c.toNat / 16) :=
      hexVal_hexDigitChar _ (by omega)
    have hv2 : hexVal (hexDigitChar (c.toNat % 16)) = some (c.toNat % 16) :=
      hexVal_hexDigitChar _ (by omega)
    have h4v := hexVal4_00 _ _ _ _ hv1 hv2
    have hmod : c.toNat / 16 * 16 + c.toNat % 16 = c.toNat := by omega
    rw [hmod] at h4v
    show decodeNext ('\\' :: 'u' :: '0' :: '0' :: hexDigitChar (c.toNat / 16)
      :: hexDigitChar (c.toNat % 16) :: tail) = some (StrTok.chr c tail)
    rw [decodeNext_backslash, decodeEscape_u_val _ _ _ _ h4v,
      if_pos (by omega : c.toNat < 0xD800), Char.ofNat_toNat]
    rfl
  · have e : escapeChar c = [c] := by
      unfold escapeChar
      rw [if_neg h1, if_neg h2, if_neg h3, if_neg h4, if_neg h5, if_neg h6, if_neg h7, if_neg h8]
    rw [e]
    show decodeNext (c :: tail) = some (StrTok.chr c tail)
    simp [decodeNext, h1, h2, h8]

theorem parseStringBody_succ (fuel : Nat) (input : List Char) :
    parseStringBody (fuel + 1) input =
      match decodeNext input with
      | some (.done rest) => some ([], rest)
      | some (.chr d rest) => (parseStringBody fuel rest).map fun p => (d :: p.1, p.2)
      | none => none := rfl

theorem parseStringBody_escapeBody (cs : List Char) :
    ∀ (fuel : Nat) (rest : List Char), (escapeBody cs).length < fuel →
      parseStringBody fuel (escapeBody cs ++ '"' :: rest) = some (cs, rest) := by
  induction cs with
  | nil =>
    intro fuel rest hf
    match fuel, hf with
    | f + 1, _ => rfl
  | cons c cs ih =>
    intro fuel rest hf
    have hlen : 1 ≤ (escapeChar c).length := length_escapeChar_pos c
    rw [show escapeBody (c :: cs) = escapeChar c ++ escapeBody cs from rfl] at hf ⊢
    rw [List.length_append] at hf
    match fuel, hf with
    | f + 1, hf =>
      rw [List.append_assoc, parseStringBody_succ, decodeNext_escapeChar]
      show (parseStringBody f (escapeBody cs ++ '"' :: rest)).map
        (fun p => (c :: p.1, p.2)) = some (c :: cs, rest)
      rw [ih f rest (by omega)]
      rfl

theorem parseString_escapeBody (cs rest : List Char) :
    parseString (escapeBody cs ++ '"' :: rest) = some (cs, rest) := by
  unfold parseString
  refine parseStringBody_escapeBody cs _ rest ?_
  rw [List.length_append]
  omega

theorem parseCore_value_quote (fuel : Nat) (r : List Char) :
    parseCore (fuel + 1) .value ('"' :: r) =
      (parseString r).map fun p => (Json.str ⟨p.1⟩, p.2) := rfl

theorem parseJson_jsonQuote (s : String) : parseJson (jsonQuote s) = some (.str s) := by
  unfold parseJson
  rw [show (jsonQuote s).data = '"' :: (escapeBody s.data ++ ['"']) from rfl]
  rw [show 2 * (jsonQuote s).length + 2 = (2 * (jsonQuote s).length + 1) + 1 from rfl]
  rw [parseCore_value_quote]
  rw [parseString_escapeBody s.data []]
  rfl

/-! ## Branch equations of render_static -/

theorem render_static_empty (path : String) (lines : List String)
    (h : lines.getLast? = none) :
    render_static path lines =
      .ok ⟨into_result (error_page "No content received from Node.js process." ""),
        some ⟨path, "No content received from Node.js process.", ""⟩⟩ := by
  unfold render_static
  rw [h]

theorem render_static_success (path : String) (lines : List String) (last d s : String)
    (v : Json) (hlast : lines.getLast? = some last)
    (hstrip : stripLead last "RESULT=" = some d)
    (hparse : parseJson d = some v) (hvs : v.as_str = some s) :
    render_static path lines = .ok ⟨into_result s, none⟩ := by
  unfold render_static
  rw [hlast]
  simp only [hstrip, hparse, hvs]

theorem render_static_notstr (path : String) (lines : List String) (last d : String)
    (v : Json) (hlast : lines.getLast? = some last)
    (hstrip : stripLead last "RESULT=" = some d)
    (hparse : parseJson d = some v) (hvs : v.as_str = none) :
    render_static path lines =
      .ok ⟨into_result (error_page "Result provided by Node.js rendering process was not a string"
            (String.intercalate "\n" lines)),
          some ⟨path, "Result provided by Node.js rendering process was not a string",
            String.intercalate "\n" lines⟩⟩ := by
  unfold render_static
  rw [hlast]
  simp only [hstrip, hparse, hvs]

theorem render_static_result_badjson (path : String) (lines : List String) (last d : String)
    (hlast : lines.getLast? = some last)
    (hstrip : stripLead last "RESULT=" = some d)
    (hparse : parseJson d = none) :
    render_static path lines = .error "failed to parse JSON" := by
  unfold render_static
  rw [hlast]
  simp only [hstrip, hparse]

theorem render_static_error_str (path : String) (lines : List String) (last d s : String)
    (v : Json) (hlast : lines.getLast? = some last)
    (hres : stripLead last "RESULT=" = none)
    (herr : stripLead last "ERROR=" = some d)
    (hparse : parseJson d = some v) (hvs : v.as_str = some s) :
    render_static path lines =
      .ok ⟨into_result (error_page s (String.intercalate "\n" lines.dropLast)),
          some ⟨path, s, String.intercalate "\n" lines.dropLast⟩⟩ := by
  unfold render_static
  rw [hlast]
  simp only [hres, herr, hparse, hvs]

theorem render_static_error_nonstr (path : String) (lines : List String) (last d : String)
    (v : Json) (hlast : lines.getLast? = some last)
    (hres : stripLead last "RESULT=" = none)
    (herr : stripLead last "ERROR=" = some d)
    (hparse : parseJson d = some v) (hvs : v.as_str = none) :
    render_static path lines =
      .ok ⟨into_result (error_page v.render (String.intercalate "\n" lines.dropLast)),
          some ⟨path, v.render, String.intercalate "\n" lines.dropLast⟩⟩ := by
  unfold render_static
  rw [hlast]
  simp only [hres, herr, hparse, hvs]

theorem render_static_error_badjson (path : String) (lines : List String) (last d : String)
    (hlast : lines.getLast? = some last)
    (hres : stripLead last "RESULT=" = none)
    (herr : stripLead last "ERROR=" = some d)
    (hparse : parseJson d = none) :
    render_static path lines = .error "failed to parse JSON" := by
  unfold render_static
  rw [hlast]
  simp only [hres, herr, hparse]

theorem render_static_noresult (path : String) (lines : List String) (last : String)
    (hlast : lines.getLast? = some last)
    (hres : stripLead last "RESULT=" = none)
    (herr : stripLead last "ERROR=" = none) :
    render_static path lines =
      .ok ⟨into_result (error_page "No result provided by Node.js process"
            (String.intercalate "\n" lines)),
          some ⟨path, "No result provided by Node.js process",
            String.intercalate "\n" lines⟩⟩ := by
  unfold render_static
  rw [hlast]
  simp only [hres, herr]

/- Every output of `render_static` that carries an issue is the synthesized
error page for exactly that issue, whose context is `path`. -/
theorem render_static_failure_shape (path : String) (lines : List String)
    (out : RenderOutput) (issue : RenderingIssue)
    (hout : render_static path lines = .ok out) (hiss : out.issue = some issue) :
    out.content = into_result (error_page issue.message issue.logging) ∧
    issue.context = path := by
  rcases hlast : lines.getLast? with _ | last
  · rw [render_static_empty path lines hlast] at hout
    injection hout with h
    subst h
    injection hiss with h2
    subst h2
    exact ⟨rfl, rfl⟩
  · rcases hres : stripLead last "RESULT=" with _ | d
    · rcases herr : stripLead last "ERROR=" with _ | d
      · rw [render_static_noresult path lines last hlast hres herr] at hout
        injection hout with h
        subst h
        injection hiss with h2
        subst h2
        exact ⟨rfl, rfl⟩
      · rcases hparse : parseJson d with _ | v
        · rw [render_static_error_badjson path lines last d hlast hres herr hparse] at hout
          exact Except.noConfusion hout
        · rcases hvs : v.as_str with _ | s
          · rw [render_static_error_nonstr path lines last d v hlast hres herr hparse hvs] at hout
            injection hout with h
            subst h
            injection hiss with h2
            subst h2
            exact ⟨rfl, rfl⟩
          · rw [render_static_error_str path lines last d s v hlast hres herr hparse hvs] at hout
            injection hout with h
            subst h
            injection hiss with h2
            subst h2
            exact ⟨rfl, rfl⟩
    · rcases hparse : parseJson d with _ | v
      · rw [render_static_result_badjson path lines last d hlast hres hparse] at hout
        exact Except.noConfusion hout
      · rcases hvs : v.as_str with _ | s
        · rw [render_static_notstr path lines last d v hlast hres hparse hvs] at hout
          injection hout with h
          subst h
          injection hiss with h2
          subst h2
          exact ⟨rfl, rfl⟩
        · rw [render_static_success path lines last d s v hlast hres hparse hvs] at hout
          injection hout with h
          subst h
          exact Option.noConfusion hiss

/-! ## Claim C1 -/

/-- C1 counterexample: on the empty line sequence, `render_static` produces a
Failure whose message is the code's literal "No content received from Node.js
process.", not the claim's "No content received from the worker process". -/
theorem render_static_empty_message_cex :
    render_static "ctx" [] =
      .ok ⟨into_result (error_page "No content received from Node.js process." ""),
        some ⟨"ctx", "No content received from Node.js process.", ""⟩⟩ ∧
    "No content received from Node.js process." ≠
      "No content received from the worker process" :=
  ⟨rfl, by decide⟩

/-- C1 (amended): protocol interpretation of `render_static` with the code's
literal diagnostic messages. No lines: Failure "No content received from
Node.js process." with empty log. Last line `RESULT=` + JSON string s:
Success(s). Last line `RESULT=` + JSON non-string: Failure "Result provided
by Node.js rendering process was not a string", log = all lines. Last line
`ERROR=` + JSON: Failure whose message is the string (or the value rendered
as text) and whose log is all lines but the last. Any other last line:
Failure "No result provided by Node.js process", log = all lines. -/
theorem render_static_protocol_amended (path : String) (lines : List String) :
    (lines = [] →
      render_static path lines =
        .ok ⟨into_result (error_page "No content received from Node.js process." ""),
          some ⟨path, "No content received from Node.js process.", ""⟩⟩) ∧
    (∀ last d s, lines.getLast? = some last → stripLead last "RESULT=" = some d →
      parseJson d = some (.str s) →
      render_static path lines = .ok ⟨into_result s, none⟩) ∧
    (∀ last d v, lines.getLast? = some last → stripLead last "RESULT=" = some d →
      parseJson d = some v → v.as_str = none →
      render_static path lines =
        .ok ⟨into_result (error_page
              "Result provided by Node.js rendering process was not a string"
              (String.intercalate "\n" lines)),
            some ⟨path, "Result provided by Node.js rendering process was not a string",
              String.intercalate "\n" lines⟩⟩) ∧
    (∀ last d s, lines.getLast? = some last → stripLead last "ERROR=" = some d →
      parseJson d = some (.str s) →
      render_static path lines =
        .ok ⟨into_result (error_page s (String.intercalate "\n" lines.dropLast)),
            some ⟨path, s, String.intercalate "\n" lines.dropLast⟩⟩) ∧
    (∀ last d v, lines.getLast? = some last → stripLead last "ERROR=" = some d →
      parseJson d = some v → v.as_str = none →
      render_static path lines =
        .ok ⟨into_result (error_page v.render (String.intercalate "\n" lines.dropLast)),
            some ⟨path, v.render, String.intercalate "\n" lines.dropLast⟩⟩) ∧
    (∀ last, lines.getLast? = some last → stripLead last "RESULT=" = none →
      stripLead last "ERROR=" = none →
      render_static path lines =
        .ok ⟨into_result (error_page "No result provided by Node.js process"
              (String.intercalate "\n" lines)),
            some ⟨path, "No result provided by Node.js process",
              String.intercalate "\n" lines⟩⟩) := by
  refine ⟨?_, ?_, ?_, ?_, ?_, ?_⟩
  · intro h
    subst h
    exact render_static_empty path [] rfl
  · intro last d s hlast hstrip hparse
    exact render_static_success path lines last d s (.str s) hlast hstrip hparse rfl
  · intro last d v hlast hstrip hparse hvs
    exact render_static_notstr path lines last d v hlast hstrip hparse hvs
  · intro last d s hlast herr hparse
    exact render_static_error_str path lines last d s (.str s) hlast
      (stripLead_error_result last d herr) herr hparse rfl
  · intro last d v hlast herr hparse hvs
    exact render_static_error_nonstr path lines last d v hlast
      (stripLead_error_result last d herr) herr hparse hvs
  · intro last hlast hres herr
    exact render_static_noresult path lines last hlast hres herr

/-- C1 witness: the amended protocol theorem applied to a concrete ERROR
response. -/
theorem render_static_protocol_amended_witness :
    render_static "p" ["stack trace line 1", "ERROR=\"boom\""] =
      .ok ⟨into_result (error_page "boom" "stack trace line 1"),
        some ⟨"p", "boom", "stack trace line 1"⟩⟩ :=
  (render_static_protocol_amended "p" ["stack trace line 1", "ERROR=\"boom\""]).2.2.2.1
    "ERROR=\"boom\"" "\"boom\"" "boom" rfl rfl rfl

/-! ## Claim C2 -/

/-- C2 counterexample: a last line whose text after `RESULT=` is not valid
JSON makes `render_static` return a hard error (the `?` on
`serde_json::from_str`), not a rendered page. -/
theorem render_static_bad_json_hard_error_cex :
    is_hard_error (render_static "p" ["RESULT=notjson"]) = true := rfl

/-- C2 (amended): whenever every `RESULT=`/`ERROR=` payload on the last line
is valid JSON, `render_static` returns a rendered text/html page and no hard
error; an invalid JSON payload after either marker propagates as a hard
error instead. -/
theorem render_static_degrades_amended (path : String) (lines : List String) :
    (payload_parses lines →
      ∃ out, render_static path lines = .ok out ∧
        out.content.contentType = TEXT_HTML_UTF_8) ∧
    (∀ last d, lines.getLast? = some last → stripLead last "RESULT=" = some d →
      parseJson d = none → render_static path lines = .error "failed to parse JSON") ∧
    (∀ last d, lines.getLast? = some last → stripLead last "RESULT=" = none →
      stripLead last "ERROR=" = some d → parseJson d = none →
      render_static path lines = .error "failed to parse JSON") := by
  refine ⟨?_, ?_, ?_⟩
  · intro hp
    rcases hlast : lines.getLast? with _ | last
    · exact ⟨_, render_static_empty path lines hlast, rfl⟩
    · rcases hres : stripLead last "RESULT=" with _ | d
      · rcases herr : stripLead last "ERROR=" with _ | d
        · exact ⟨_, render_static_noresult path lines last hlast hres herr, rfl⟩
        · have hs := ((hp last hlast).2 d herr)
          rcases hparse : parseJson d with _ | v
          · rw [hparse] at hs
            exact absurd hs (by decide)
          · rcases hvs : v.as_str with _ | s
            · exact ⟨_, render_static_error_nonstr path lines last d v hlast hres herr
                hparse hvs, rfl⟩
            · exact ⟨_, render_static_error_str path lines last d s v hlast hres herr
                hparse hvs, rfl⟩
      · have hs := ((hp last hlast).1 d hres)
        rcases hparse : parseJson d with _ | v
        · rw [hparse] at hs
          exact absurd hs (by decide)
        · rcases hvs : v.as_str with _ | s
          · exact ⟨_, render_static_notstr path lines last d v hlast hres hparse hvs, rfl⟩
          · exact ⟨_, render_static_success path lines last d s v hlast hres hparse hvs, rfl⟩
  · intro last d hlast hstrip hparse
    exact render_static_result_badjson path lines last d hlast hstrip hparse
  · intro last d hlast hres herr hparse
    exact render_static_error_badjson path lines last d hlast hres herr hparse

/-- C2 witness: the amended theorem applied to a concrete parsable response. -/
theorem render_static_degrades_amended_witness :
    ∃ out, render_static "p" ["ERROR=\"x\""] = .ok out ∧
      out.content.contentType = TEXT_HTML_UTF_8 :=
  (render_static_degrades_amended "p" ["ERROR=\"x\""]).1
    (fun last hlast => by
      rw [show (["ERROR=\"x\""] : List String).getLast? = some "ERROR=\"x\"" from rfl] at hlast
      injection hlast with hl
      subst hl
      refine ⟨fun d hd => ?_, fun d hd => ?_⟩
      · rw [show stripLead "ERROR=\"x\"" "RESULT=" = none from rfl] at hd
        exact Option.noConfusion hd
      · rw [show stripLead "ERROR=\"x\"" "ERROR=" = some "\"x\"" from rfl] at hd
        injection hd with hd2
        subst hd2
        rfl)

/-! ## Claim C7 -/

/-- C7: every Failure outcome of `render_static` is a text/html UTF-8
document of the form `<h1>` title, `<h2>Message</h2>` with the literal
message in a `<pre>` block, `<h2>Logs</h2>` with the log in a `<pre>` block,
and exactly one issue — carrying the same context, message and log — is
emitted to the issue side channel. -/
theorem render_static_failure_page_spec (path : String) (lines : List String)
    (out : RenderOutput) (issue : RenderingIssue)
    (hout : render_static path lines = .ok out) (hiss : out.issue = some issue) :
    out.content.body =
      "<h1>Error during rendering</h1>\n<h2>Message</h2>\n<pre>" ++ issue.message ++
        "</pre>\n<h2>Logs</h2>\n<pre>" ++ issue.logging ++ "</pre>" ∧
    out.content.contentType = TEXT_HTML_UTF_8 ∧
    issue.context = path := by
  obtain ⟨hc, hctx⟩ := render_static_failure_shape path lines out issue hout hiss
  rw [hc]
  exact ⟨rfl, rfl, hctx⟩

/-- C7 witness: the failure-page theorem at a concrete protocol violation. -/
theorem render_static_failure_page_spec_witness :
    (RenderOutput.mk (into_result (error_page "No result provided by Node.js process"
        "nothing useful")) (some ⟨"p", "No result provided by Node.js process",
        "nothing useful"⟩)).content.body =
      "<h1>Error during rendering</h1>\n<h2>Message</h2>\n<pre>" ++
        (RenderingIssue.mk "p" "No result provided by Node.js process"
          "nothing useful").message ++
        "</pre>\n<h2>Logs</h2>\n<pre>" ++
        (RenderingIssue.mk "p" "No result provided by Node.js process"
          "nothing useful").logging ++ "</pre>" ∧
    (RenderOutput.mk (into_result (error_page "No result provided by Node.js process"
        "nothing useful")) (some ⟨"p", "No result provided by Node.js process",
        "nothing useful"⟩)).content.contentType = TEXT_HTML_UTF_8 ∧
    (RenderingIssue.mk "p" "No result provided by Node.js process"
      "nothing useful").context = "p" :=
  render_static_failure_page_spec "p" ["nothing useful"] _ _ rfl rfl

/-! ## Claim C8 -/

/-- C8: round-trip — when the last worker line is `RESULT=` followed by the
JSON encoding of any string s (embedded quotes, newlines and control
characters included), `render_static` succeeds with exactly s as markup. -/
theorem render_static_result_roundtrip (path : String) (pre : List String) (s : String) :
    render_static path (pre ++ ["RESULT=" ++ jsonQuote s]) = .ok ⟨into_result s, none⟩ :=
  render_static_success path _ _ (jsonQuote s) s (.str s)
    (List.getLast?_concat pre)
    (stripLead_self_append "RESULT=" (jsonQuote s))
    (parseJson_jsonQuote s) rfl

/-! ## Claim C9 -/

/-- C9: on the success path (`RESULT=` with a JSON string payload),
`render_static` returns exactly the decoded markup and writes the issue side
channel zero times; an issue is emitted if and only if the error page is
returned. -/
theorem render_static_success_frame (path : String) (lines : List String)
    (last d s : String) (hlast : lines.getLast? = some last)
    (hstrip : stripLead last "RESULT=" = some d)
    (hparse : parseJson d = some (.str s)) :
    render_static path lines = .ok ⟨into_result s, none⟩ ∧
    (∀ out, render_static path lines = .ok out → out.issue = none ∧
      out.content = into_result s) := by
  have h := render_static_success path lines last d s (.str s) hlast hstrip hparse rfl
  refine ⟨h, fun out hout => ?_⟩
  rw [h] at hout
  injection hout with h2
  rw [← h2]
  exact ⟨rfl, rfl⟩

/-- C9 witness: the success-frame theorem at the spec's concrete success
vector. -/
theorem render_static_success_frame_witness :
    render_static "p" ["debug: starting", "RESULT=\"<p>hi</p>\""] =
      .ok ⟨into_result "<p>hi</p>", none⟩ ∧
    (∀ out, render_static "p" ["debug: starting", "RESULT=\"<p>hi</p>\""] = .ok out →
      out.issue = none ∧ out.content = into_result "<p>hi</p>") :=
  render_static_success_frame "p" ["debug: starting", "RESULT=\"<p>hi</p>\""]
    "RESULT=\"<p>hi</p>\"" "\"<p>hi</p>\"" "<p>hi</p>" rfl rfl rfl

/-! ## Claim C10 -/

/-- C10: the fallback error page embeds the diagnostic message and the log
transcript character-for-character (no HTML escaping): the page body is the
literal concatenation of the fixed template with the raw message and log, so
`<`, `>` and `&` appear unescaped inside the `<pre>` blocks. -/
theorem render_static_verbatim_embedding (path : String) (lines : List String)
    (out : RenderOutput) (issue : RenderingIssue)
    (hout : render_static path lines = .ok out) (hiss : out.issue = some issue) :
    out.content.body.data =
      "<h1>Error during rendering</h1>\n<h2>Message</h2>\n<pre>".data ++
      issue.message.data ++ "</pre>\n<h2>Logs</h2>\n<pre>".data ++
      issue.logging.data ++ "</pre>".data := by
  obtain ⟨hc, _⟩ := render_static_failure_shape path lines out issue hout hiss
  rw [hc]
  show (error_page issue.message issue.logging).data = _
  unfold error_page
  rw [String.data_append, String.data_append, String.data_append, String.data_append]

/-- C10 witness: verbatim embedding at a message that contains `<`, `>` and
`&`. -/
theorem render_static_verbatim_embedding_witness :
    (RenderOutput.mk (into_result (error_page "<&>" "")) (some ⟨"p", "<&>", ""⟩)).content.body.data =
      "<h1>Error during rendering</h1>\n<h2>Message</h2>\n<pre>".data ++
      (RenderingIssue.mk "p" "<&>" "").message.data ++
      "</pre>\n<h2>Logs</h2>\n<pre>".data ++
      (RenderingIssue.mk "p" "<&>" "").logging.data ++ "</pre>".data :=
  render_static_verbatim_embedding "p" ["ERROR=\"<&>\""] _ _ rfl rfl

/-! ## Lemmas about the separate_assets worklist -/

theorem pushRefs_cons {n : Nat} (proc : Finset (Fin n)) (q : List (Fin n)) (r : Fin n)
    (rs : List (Fin n)) :
    pushRefs proc q (r :: rs) =
      if r ∈ proc then pushRefs proc q rs else pushRefs (insert r proc) (q ++ [r]) rs := rfl

theorem pushRefs_len_card {n : Nat} :
    ∀ (rs : List (Fin n)) (proc : Finset (Fin n)) (q : List (Fin n)),
      ((pushRefs proc q rs).2).length + proc.card =
        q.length + ((pushRefs proc q rs).1).card := by
  intro rs
  induction rs with
  | nil => intro proc q; rfl
  | cons r rs ih =>
    intro proc q
    rw [pushRefs_cons]
    by_cases h : r ∈ proc
    · rw [if_pos h]
      exact ih proc q
    · rw [if_neg h]
      have e := ih (insert r proc) (q ++ [r])
      rw [Finset.card_insert_of_not_mem h] at e
      rw [List.length_append] at e
      simp at e
      omega

theorem pushRefs_subset {n : Nat} :
    ∀ (rs : List (Fin n)) (proc : Finset (Fin n)) (q : List (Fin n)),
      proc ⊆ (pushRefs proc q rs).1 := by
  intro rs
  induction rs with
  | nil => intro proc q; exact Finset.Subset.refl proc
  | cons r rs ih =>
    intro proc q
    rw [pushRefs_cons]
    by_cases h : r ∈ proc
    · rw [if_pos h]
      exact ih proc q
    · rw [if_neg h]
      exact (Finset.subset_insert r proc).trans (ih (insert r proc) (q ++ [r]))

theorem pushRefs_mem_proc {n : Nat} :
    ∀ (rs : List (Fin n)) (proc : Finset (Fin n)) (q : List (Fin n)) (x : Fin n),
      x ∈ (pushRefs proc q rs).1 ↔ x ∈ proc ∨ x ∈ rs := by
  intro rs
  induction rs with
  | nil =>
    intro proc q x
    simp [pushRefs]
  | cons r rs ih =>
    intro proc q x
    rw [pushRefs_cons]
    by_cases h : r ∈ proc
    · rw [if_pos h, ih proc q x]
      constructor
      · rintro (hx | hx)
        · exact Or.inl hx
        · exact Or.inr (List.mem_cons_of_mem r hx)
      · rintro (hx | hx)
        · exact Or.inl hx
        · rcases List.mem_cons.mp hx with hx | hx
          · exact Or.inl (hx ▸ h)
          · exact Or.inr hx
    · rw [if_neg h, ih (insert r proc) (q ++ [r]) x]
      rw [Finset.mem_insert]
      constructor
      · rintro ((hx | hx) | hx)
        · exact Or.inr (hx ▸ List.mem_cons_self r rs)
        · exact Or.inl hx
        · exact Or.inr (List.mem_cons_of_mem r hx)
      · rintro (hx | hx)
        · exact Or.inl (Or.inr hx)
        · rcases List.mem_cons.mp hx with hx | hx
          · exact Or.inl (Or.inl hx)
          · exact Or.inr hx

theorem pushRefs_mem_queue {n : Nat} :
    ∀ (rs : List (Fin n)) (proc : Finset (Fin n)) (q : List (Fin n)) (x : Fin n),
      x ∈ (pushRefs proc q rs).2 ↔ x ∈ q ∨ (x ∈ rs ∧ x ∉ proc) := by
  intro rs
  induction rs with
  | nil =>
    intro proc q x
    simp [pushRefs]
  | cons r rs ih =>
    intro proc q x
    rw [pushRefs_cons]
    by_cases h : r ∈ proc
    · rw [if_pos h, ih proc q x]
      constructor
      · rintro (hx | ⟨hx1, hx2⟩)
        · exact Or.inl hx
        · exact Or.inr ⟨List.mem_cons_of_mem r hx1, hx2⟩
      · rintro (hx | ⟨hx1, hx2⟩)
        · exact Or.inl hx
        · rcases List.mem_cons.mp hx1 with hx | hx
          · exact absurd (hx ▸ h) hx2
          · exact Or.inr ⟨hx, hx2⟩
    · rw [if_neg h, ih (insert r proc) (q ++ [r]) x]
      rw [List.mem_append, Finset.mem_insert]
      constructor
      · rintro ((hx | hx) | ⟨hx1, hx2⟩)
        · exact Or.inl hx
        · rcases List.mem_singleton.mp hx with hx
          exact Or.inr ⟨hx ▸ List.mem_cons_self r rs, hx ▸ h⟩
        · push_neg at hx2
          exact Or.inr ⟨List.mem_cons_of_mem r hx1, hx2.2⟩
      · rintro (hx | ⟨hx1, hx2⟩)
        · exact Or.inl (Or.inl hx)
        · rcases List.mem_cons.mp hx1 with hx | hx
          · exact Or.inl (Or.inr (by simp [hx]))
          · by_cases hxr : x = r
            · exact Or.inl (Or.inr (by simp [hxr]))
            · exact Or.inr ⟨hx, by simp [hxr, hx2]⟩

theorem pushRefs_count {n : Nat} :
    ∀ (rs : List (Fin n)) (proc : Finset (Fin n)) (q : List (Fin n)) (x : Fin n),
      ((pushRefs proc q rs).2).count x + (if x ∈ proc then 1 else 0) ≤
        q.count x + (if x ∈ (pushRefs proc q rs).1 then 1 else 0) := by
  intro rs
  induction rs with
  | nil =>
    intro proc q x
    simp [pushRefs]
  | cons r rs ih =>
    intro proc q x
    rw [pushRefs_cons]
    by_cases h : r ∈ proc
    · rw [if_pos h]
      exact ih proc q x
    · rw [if_neg h]
      have e := ih (insert r proc) (q ++ [r]) x
      rw [List.count_append] at e
      by_cases hxr : x = r
      · subst hxr
        rw [if_pos (Finset.mem_insert_self x proc)] at e
        rw [if_neg h]
        simp at e ⊢
        omega
      · simp only [Finset.mem_insert, hxr, false_or] at e
        have hc : List.count x [r] = 0 := by
          simp [List.count_cons, hxr]
        rw [hc] at e
        omega

theorem sepLoop_nil {n : Nat} (g : Graph n) (fuel : Nat)
    (proc internal external : Finset (Fin n)) (tr : List (Fin n)) :
    sepLoop g fuel [] proc internal external tr = some ⟨internal, external, tr⟩ := by
  cases fuel <;> rfl

theorem sepLoop_cons {n : Nat} (g : Graph n) (f : Nat) (a : Fin n) (rest : List (Fin n))
    (proc internal external : Finset (Fin n)) (tr : List (Fin n)) :
    sepLoop g (f + 1) (a :: rest) proc internal external tr =
      if g.inside a = true then
        sepLoop g f (pushRefs proc rest (g.refs a)).2 (pushRefs proc rest (g.refs a)).1
          (insert a internal) external (tr ++ [a])
      else sepLoop g f rest proc internal (insert a external) (tr ++ [a]) := rfl

theorem sepLoop_master_base {n : Nat} (g : Graph n) (entry : Fin n) (fuel : Nat)
    (proc internal external : Finset (Fin n)) (tr : List (Fin n))
    (hint : ∀ x ∈ internal, ReachI g entry x ∧ g.inside x = true)
    (hext : ∀ x ∈ external, ReachI g entry x ∧ g.inside x = false)
    (hclos : ∀ x ∈ internal, ∀ r ∈ g.refs x, r ∈ proc)
    (hproc : ∀ x ∈ proc, x ∈ ([] : List (Fin n)) ∨ x ∈ internal ∨ x ∈ external)
    (hentry : entry ∈ ([] : List (Fin n)) ∨ entry ∈ internal ∨ entry ∈ external)
    (hcount : ∀ x, tr.count x + List.count x ([] : List (Fin n)) ≤
      (if x ∈ proc then 1 else 0) + (if x = entry then 1 else 0)) :
    ∃ st, sepLoop g fuel [] proc internal external tr = some st ∧
      (∀ x ∈ st.internal_assets, ReachI g entry x ∧ g.inside x = true) ∧
      (∀ x ∈ st.external_asset_entrypoints, ReachI g entry x ∧ g.inside x = false) ∧
      (∀ x ∈ st.internal_assets, ∀ r ∈ g.refs x,
        r ∈ st.internal_assets ∨ r ∈ st.external_asset_entrypoints) ∧
      (entry ∈ st.internal_assets ∨ entry ∈ st.external_asset_entrypoints) ∧
      (∀ x, st.trace.count x ≤ (if x = entry then 2 else 1)) := by
  refine ⟨⟨internal, external, tr⟩, sepLoop_nil g fuel proc internal external tr,
    hint, hext, ?_, ?_, ?_⟩
  · intro x hx r hr
    rcases hproc r (hclos x hx r hr) with h | h | h
    · exact absurd h (List.not_mem_nil r)
    · exact Or.inl h
    · exact Or.inr h
  · rcases hentry with h | h | h
    · exact absurd h (List.not_mem_nil entry)
    · exact Or.inl h
    · exact Or.inr h
  · intro x
    show tr.count x ≤ if x = entry then 2 else 1
    have h := hcount x
    rw [List.count_nil] at h
    split_ifs at h ⊢ <;> omega

theorem sepLoop_master {n : Nat} (g : Graph n) (entry : Fin n) :
    ∀ (fuel : Nat) (queue : List (Fin n)) (proc internal external : Finset (Fin n))
      (tr : List (Fin n)),
      queue.length + (n - proc.card) ≤ fuel →
      (∀ x ∈ queue, ReachI g entry x) →
      (∀ x ∈ internal, ReachI g entry x ∧ g.inside x = true) →
      (∀ x ∈ external, ReachI g entry x ∧ g.inside x = false) →
      (∀ x ∈ internal, ∀ r ∈ g.refs x, r ∈ proc) →
      (∀ x ∈ proc, x ∈ queue ∨ x ∈ internal ∨ x ∈ external) →
      (entry ∈ queue ∨ entry ∈ internal ∨ entry ∈ external) →
      (∀ x, tr.count x + queue.count x ≤
        (if x ∈ proc then 1 else 0) + (if x = entry then 1 else 0)) →
      ∃ st, sepLoop g fuel queue proc internal external tr = some st ∧
        (∀ x ∈ st.internal_assets, ReachI g entry x ∧ g.inside x = true) ∧
        (∀ x ∈ st.external_asset_entrypoints, ReachI g entry x ∧ g.inside x = false) ∧
        (∀ x ∈ st.internal_assets, ∀ r ∈ g.refs x,
          r ∈ st.internal_assets ∨ r ∈ st.external_asset_entrypoints) ∧
        (entry ∈ st.internal_assets ∨ entry ∈ st.external_asset_entrypoints) ∧
        (∀ x, st.trace.count x ≤ (if x = entry then 2 else 1)) := by
  intro fuel
  induction fuel with
  | zero =>
    intro queue proc internal external tr hfuel hq hint hext hclos hproc hentry hcount
    cases queue with
    | nil =>
      exact sepLoop_master_base g entry 0 proc internal external tr
        hint hext hclos hproc hentry hcount
    | cons a rest =>
      exfalso
      rw [List.length_cons] at hfuel
      omega
  | succ f ih =>
    intro queue proc internal external tr hfuel hq hint hext hclos hproc hentry hcount
    cases queue with
    | nil =>
      exact sepLoop_master_base g entry (f + 1) proc internal external tr
        hint hext hclos hproc hentry hcount
    | cons a rest =>
      rw [sepLoop_cons]
      by_cases hin : g.inside a = true
      · rw [if_pos hin]
        have hL1 := pushRefs_len_card (g.refs a) proc rest
        have hL2 := pushRefs_subset (g.refs a) proc rest
        have hcard1 : proc.card ≤ (pushRefs proc rest (g.refs a)).1.card :=
          Finset.card_le_card hL2
        have hcard2 : (pushRefs proc rest (g.refs a)).1.card ≤ n := by
          have h := Finset.card_le_univ (pushRefs proc rest (g.refs a)).1
          simpa using h
        apply ih
        · rw [List.length_cons] at hfuel
          omega
        · intro x hx
          rcases (pushRefs_mem_queue (g.refs a) proc rest x).mp hx with hx | ⟨hx1, _⟩
          · exact hq x (List.mem_cons_of_mem a hx)
          · exact ReachI.step (hq a (List.mem_cons_self a rest)) hin hx1
        · intro x hx
          rcases Finset.mem_insert.mp hx with hx | hx
          · subst hx
            exact ⟨hq x (List.mem_cons_self x rest), hin⟩
          · exact hint x hx
        · exact hext
        · intro x hx r hr
          rcases Finset.mem_insert.mp hx with hx | hx
          · subst hx
            exact (pushRefs_mem_proc (g.refs x) proc rest r).mpr (Or.inr hr)
          · exact hL2 (hclos x hx r hr)
        · intro x hx
          have hstep : x ∈ proc → x ∈ (pushRefs proc rest (g.refs a)).2 ∨
              x ∈ insert a internal ∨ x ∈ external := by
            intro hxp
            rcases hproc x hxp with hq0 | h | h
            · rcases List.mem_cons.mp hq0 with h0 | h0
              · exact Or.inr (Or.inl (by rw [h0]; exact Finset.mem_insert_self a internal))
              · exact Or.inl ((pushRefs_mem_queue (g.refs a) proc rest x).mpr (Or.inl h0))
            · exact Or.inr (Or.inl (Finset.mem_insert_of_mem h))
            · exact Or.inr (Or.inr h)
          rcases (pushRefs_mem_proc (g.refs a) proc rest x).mp hx with hx | hx
          · exact hstep hx
          · by_cases hxp : x ∈ proc
            · exact hstep hxp
            · exact Or.inl
                ((pushRefs_mem_queue (g.refs a) proc rest x).mpr (Or.inr ⟨hx, hxp⟩))
        · rcases hentry with hq0 | h | h
          · rcases List.mem_cons.mp hq0 with h0 | h0
            · exact Or.inr (Or.inl (by rw [h0]; exact Finset.mem_insert_self a internal))
            · exact Or.inl ((pushRefs_mem_queue (g.refs a) proc rest entry).mpr (Or.inl h0))
          · exact Or.inr (Or.inl (Finset.mem_insert_of_mem h))
          · exact Or.inr (Or.inr h)
        · intro x
          have h4 := pushRefs_count (g.refs a) proc rest x
          have hc := hcount x
          simp only [List.count_cons, List.count_append, List.count_nil, beq_iff_eq,
            Nat.add_zero, Nat.zero_add] at hc ⊢
          split_ifs at h4 hc ⊢ <;> omega
      · rw [if_neg hin]
        rw [Bool.not_eq_true] at hin
        apply ih
        · rw [List.length_cons] at hfuel
          omega
        · exact fun x hx => hq x (List.mem_cons_of_mem a hx)
        · exact hint
        · intro x hx
          rcases Finset.mem_insert.mp hx with hx | hx
          · subst hx
            exact ⟨hq x (List.mem_cons_self x rest), hin⟩
          · exact hext x hx
        · exact hclos
        · intro x hx
          rcases hproc x hx with hq0 | h | h
          · rcases List.mem_cons.mp hq0 with h0 | h0
            · exact Or.inr (Or.inr (by rw [h0]; exact Finset.mem_insert_self a external))
            · exact Or.inl h0
          · exact Or.inr (Or.inl h)
          · exact Or.inr (Or.inr (Finset.mem_insert_of_mem h))
        · rcases hentry with hq0 | h | h
          · rcases List.mem_cons.mp hq0 with h0 | h0
            · exact Or.inr (Or.inr (by rw [h0]; exact Finset.mem_insert_self a external))
            · exact Or.inl h0
          · exact Or.inr (Or.inl h)
          · exact Or.inr (Or.inr (Finset.mem_insert_of_mem h))
        · intro x
          have hc := hcount x
          simp only [List.count_cons, List.count_append, List.count_nil, beq_iff_eq,
            Nat.add_zero, Nat.zero_add] at hc ⊢
          split_ifs at hc ⊢ <;> omega

theorem separate_assets_master {n : Nat} (g : Graph n) (entry : Fin n) :
    ∃ st, separate_assets g entry = some st ∧
      (∀ x ∈ st.internal_assets, ReachI g entry x ∧ g.inside x = true) ∧
      (∀ x ∈ st.external_asset_entrypoints, ReachI g entry x ∧ g.inside x = false) ∧
      (∀ x ∈ st.internal_assets, ∀ r ∈ g.refs x,
        r ∈ st.internal_assets ∨ r ∈ st.external_asset_entrypoints) ∧
      (entry ∈ st.internal_assets ∨ entry ∈ st.external_asset_entrypoints) ∧
      (∀ x, st.trace.count x ≤ (if x = entry then 2 else 1)) := by
  unfold separate_assets
  apply sepLoop_master g entry (n + 2) [entry] ∅ ∅ ∅ []
  · rw [List.length_singleton]
    omega
  · intro x hx
    rw [List.mem_singleton] at hx
    subst hx
    exact ReachI.origin
  · intro x hx
    exact absurd hx (Finset.not_mem_empty x)
  · intro x hx
    exact absurd hx (Finset.not_mem_empty x)
  · intro x hx
    exact absurd hx (Finset.not_mem_empty x)
  · intro x hx
    exact absurd hx (Finset.not_mem_empty x)
  · exact Or.inl (List.mem_singleton.mpr rfl)
  · intro x
    simp only [List.count_cons, List.count_nil, beq_iff_eq, Nat.add_zero, Nat.zero_add]
    rw [if_neg (Finset.not_mem_empty x)]
    split_ifs <;> omega

theorem emit_isSome {n : Nat} (g : Graph n) (entry : Fin n) :
    (emit g entry).isSome = true := by
  obtain ⟨st, hrun, -⟩ := separate_assets_master g entry
  unfold emit internal_assets
  rw [hrun]
  rfl

/-! ## Claim C3 -/

/-- C3 counterexample: in a one-artifact graph whose internal entry references
itself, the entry is dequeued and classified twice — it is pushed onto the
queue without being inserted into `processed`, so the visited set does not
protect it. -/
theorem separate_assets_entry_twice_cex :
    ((separate_assets selfLoopGraph 0).map fun st => st.trace.count 0) = some 2 ∧
    ¬ (2 : Nat) ≤ 1 :=
  ⟨rfl, by omega⟩

/-- C3 (amended): every artifact other than the entry is dequeued and
classified at most once (the visited set keyed by artifact value identity
dedups them at enqueue time); the entry itself, which is enqueued without
being marked processed, can be dequeued a second time when an internal
artifact references it — the classification sets are unaffected by the
duplicate, only the processing count is. -/
theorem separate_assets_classified_once {n : Nat} (g : Graph n) (entry : Fin n) :
    ∃ st, separate_assets g entry = some st ∧
      (∀ x, x ≠ entry → st.trace.count x ≤ 1) ∧ st.trace.count entry ≤ 2 := by
  obtain ⟨st, hrun, -, -, -, -, hcnt⟩ := separate_assets_master g entry
  refine ⟨st, hrun, fun x hx => ?_, ?_⟩
  · have h := hcnt x
    rw [if_neg hx] at h
    exact h
  · have h := hcnt entry
    rw [if_pos rfl] at h
    exact h

/-- C3 witness: the amended theorem at a concrete three-artifact graph. -/
theorem separate_assets_classified_once_witness :
    ∃ st, separate_assets sampleGraph 0 = some st ∧
      (∀ x, x ≠ 0 → st.trace.count x ≤ 1) ∧ st.trace.count 0 ≤ 2 :=
  separate_assets_classified_once sampleGraph 0

/-! ## Claim C4 -/

/-- C4: if the entry artifact's destination path is not inside the output
root, `separate_assets` classifies the entry as External: the internal set
is empty, the external boundary set is exactly {entry}, and `emit` performs
no writes at all. -/
theorem separate_assets_external_entry {n : Nat} (g : Graph n) (entry : Fin n)
    (h : g.inside entry = false) :
    separate_assets g entry = some ⟨∅, {entry}, [entry]⟩ ∧
    emit g entry = some ∅ := by
  have e1 : separate_assets g entry = some ⟨∅, {entry}, [entry]⟩ := by
    unfold separate_assets
    rw [show n + 2 = (n + 1) + 1 from rfl, sepLoop_cons, if_neg (by simp [h])]
    exact sepLoop_nil g (n + 1) ∅ ∅ {entry} [entry]
  refine ⟨e1, ?_⟩
  unfold emit internal_assets
  rw [e1]
  rfl

/-- C4 witness: the theorem at a one-artifact graph placed outside the
output root. -/
theorem separate_assets_external_entry_witness :
    separate_assets externalEntryGraph 0 = some ⟨∅, {0}, [0]⟩ ∧
    emit externalEntryGraph 0 = some ∅ :=
  separate_assets_external_entry externalEntryGraph 0 rfl

/-! ## Claim C6 -/

/-- C6: for every artifact graph and output root, the internal set and the
external boundary set returned by `separate_assets` are disjoint, and their
union is exactly the set of artifacts reachable from the entry following
references of internal artifacts only (references of external artifacts are
never followed — `ReachI` steps only through artifacts with `inside = true`). -/
theorem separate_assets_partition {n : Nat} (g : Graph n) (entry : Fin n) :
    ∃ st, separate_assets g entry = some st ∧
      Disjoint st.internal_assets st.external_asset_entrypoints ∧
      (∀ x, (x ∈ st.internal_assets ∨ x ∈ st.external_asset_entrypoints) ↔
        ReachI g entry x) := by
  obtain ⟨st, hrun, hint, hext, hclos, hentry, -⟩ := separate_assets_master g entry
  refine ⟨st, hrun, ?_, ?_⟩
  · rw [Finset.disjoint_left]
    intro x hx1 hx2
    have h1 := (hint x hx1).2
    have h2 := (hext x hx2).2
    rw [h1] at h2
    exact Bool.noConfusion h2
  · intro x
    constructor
    · rintro (hx | hx)
      · exact (hint x hx).1
      · exact (hext x hx).1
    · intro hx
      induction hx with
      | origin => exact hentry
      | step ha hbin hr ih =>
        rcases ih with h | h
        · exact hclos _ h _ hr
        · rw [(hext _ h).2] at hbin
          exact Bool.noConfusion hbin

/-- C6 witness: the partition theorem at a concrete three-artifact graph. -/
theorem separate_assets_partition_witness :
    ∃ st, separate_assets sampleGraph 0 = some st ∧
      Disjoint st.internal_assets st.external_asset_entrypoints ∧
      (∀ x, (x ∈ st.internal_assets ∨ x ∈ st.external_asset_entrypoints) ↔
        ReachI sampleGraph 0 x) :=
  separate_assets_partition sampleGraph 0

/-! ## Claim C5 -/

/-- C5: `get_renderer_pool` first completes `emit` (the first event of its
trace is the awaited emission); when the output root resolves to a disk
filesystem it returns a pool of exactly 4 workers rooted at the resolved
directory `<root>/<path>` with entrypoint `<directory>/index.js` and no
environment overrides; when the root is not disk-backed it fails with the
"can only render from a disk filesystem" error and no pool is ever
constructed. -/
theorem get_renderer_pool_spec {n : Nat} (g : Graph n) (entry : Fin n) (out : OutputPath) :
    (∃ w rest, (get_renderer_pool g entry out).1 = PoolEvent.emitted w :: rest) ∧
    (∀ root, out.fs = .disk root →
      ∃ pool, (get_renderer_pool g entry out).2 = .ok pool ∧
        pool.concurrency = 4 ∧ pool.cwd = pathJoin root out.path ∧
        pool.entrypoint = pathJoin (pathJoin root out.path) "index.js" ∧
        pool.env = []) ∧
    (out.fs = .virtualFs →
      (get_renderer_pool g entry out).2 = .error "can only render from a disk filesystem" ∧
      ∀ p, PoolEvent.poolConstructed p ∉ (get_renderer_pool g entry out).1) := by
  rcases out with ⟨fs, path⟩
  cases fs with
  | disk root =>
    refine ⟨⟨(emit g entry).getD ∅, _, rfl⟩, ?_, ?_⟩
    · intro r hr
      injection hr with hr2
      subst hr2
      exact ⟨_, rfl, rfl, rfl, rfl, rfl⟩
    · intro hv
      exact FileSystem.noConfusion hv
  | virtualFs =>
    refine ⟨⟨(emit g entry).getD ∅, _, rfl⟩, ?_, ?_⟩
    · intro r hr
      exact FileSystem.noConfusion hr
    · intro _
      refine ⟨rfl, fun p hp => ?_⟩
      simp [get_renderer_pool] at hp

/-- C5 witness: the pool theorem at a concrete disk-backed output root. -/
theorem get_renderer_pool_spec_witness :
    ∃ pool, (get_renderer_pool sampleGraph 0 ⟨.disk "root", "out"⟩).2 = .ok pool ∧
      pool.concurrency = 4 ∧ pool.cwd = pathJoin "root" "out" ∧
      pool.entrypoint = pathJoin (pathJoin "root" "out") "index.js" ∧
      pool.env = [] :=
  (get_renderer_pool_spec sampleGraph 0 ⟨.disk "root", "out"⟩).2.1 "root" rfl
